import Mathlib

/-!
Shallow embedding of the change-detection and debounced-notification engine
of the Airtable connector (src/src/index.ts), together with theorems that
check the natural-language specification against it.

Conventions of the embedding:
* JavaScript objects used as string-keyed dictionaries are embedded as
  association lists `List (String × α)` in key-insertion order; property
  assignment `obj[k] = v` is `objSet` (update in place if the key exists,
  append otherwise) and property lookup is `alookup`. JavaScript objects
  never hold two entries for one key, so theorems that need it carry
  `(keys m).Nodup` hypotheses.
* Airtable records are embedded as `TableRecord`: a `ref` field models the
  JavaScript object identity (two expressions denote the same heap object
  iff all components including `ref` agree), `id` is `record.id`, and
  `fields` is `record.fields` in property order.  Field values are
  modelled as JSON scalars; the claims only compare values for equality
  and serialization, never inspect deeper structure.
* `JSON.stringify` is embedded by `stringifyJval` / `stringifyFields`,
  serializing in stored property order, and the JavaScript strict equality
  `===` on two record objects is `jsStrictEq` (object identity; in any
  well-formed heap identity coincides with equality of all components).
-/

namespace AirtableConnector

/-- JSON scalar values held in a record's field map. -/
inductive Jval where
  | null : Jval
  | bool (b : Bool) : Jval
  | num (n : Int) : Jval
  | str (s : String) : Jval
deriving DecidableEq, Repr

/-- A record's field map: field name to value, in property order. -/
abbrev FieldMap := List (String × Jval)

/-- An Airtable record as held in a snapshot: `ref` models JavaScript
object identity, `id` is `record.id`, `fields` is `record.fields`. -/
structure TableRecord where
  ref : Nat
  id : String
  fields : FieldMap
deriving DecidableEq, Repr

/-- One table of a snapshot: record identifier to record. -/
abbrev TableRecordMap := List (String × TableRecord)

/-- `type Tables = Record<TableName, TableRecord>` (index.ts line 24):
table name to table contents. -/
abbrev Tables := List (String × TableRecordMap)

/-- Property lookup `obj[k]` on a JavaScript object embedded as an
association list: first entry with the key, if any. -/
def alookup {α : Type} : List (String × α) → String → Option α
  | [], _ => none
  | p :: rest, key => if p.1 = key then some p.2 else alookup rest key

/-- The keys of an embedded JavaScript object. -/
def keys {α : Type} (l : List (String × α)) : List String :=
  l.map Prod.fst

/-- Property assignment `obj[k] = v`: overwrite in place when the key
exists, append otherwise (JavaScript key-insertion order). -/
def objSet {α : Type} : List (String × α) → String → α → List (String × α)
  | [], k, v => [(k, v)]
  | p :: rest, k, v =>
      if p.1 = k then (k, v) :: rest else p :: objSet rest k v

/-- Escaping of one character inside a JSON string literal. -/
def escapeChar (c : Char) : String :=
  if c = '\\' then "\\\\" else if c = '"' then "\\\"" else String.singleton c

/-- Escaping of a whole string for a JSON string literal. -/
def escapeString (s : String) : String :=
  String.join (s.data.map escapeChar)

/-- `JSON.stringify` of a scalar field value. -/
def stringifyJval : Jval → String
  | .null => "null"
  | .bool true => "true"
  | .bool false => "false"
  | .num n => toString n
  | .str s => "\"" ++ escapeString s ++ "\""

/-- `JSON.stringify` of a field map, serialized in stored property
order. -/
def stringifyFields (f : FieldMap) : String :=
  "\x7b" ++
    String.intercalate ","
      (f.map fun p => "\"" ++ escapeString p.1 ++ "\":" ++ stringifyJval p.2) ++
    "\x7d"

/-- `likelyTheSameObject` (index.ts lines 180-183): compare the field
values by comparing JSON serializations. -/
def likelyTheSameObject (o1 o2 : TableRecord) : Bool :=
  stringifyFields o1.fields == stringifyFields o2.fields

/-- JavaScript strict equality `===` on two record objects: object
identity.  In a well-formed heap the `ref` determines the object, so
identity is embedded as equality of the whole record value. -/
def jsStrictEq (r1 r2 : TableRecord) : Bool :=
  decide (r1 = r2)

/-- Table lookup `objects[table]`. -/
def getTable (t : Tables) (name : String) : Option TableRecordMap :=
  alookup t name

/-- Record lookup `objects[table][id]`, with a missing table read as an
empty table. -/
def recLookup (t : Tables) (table id : String) : Option TableRecord :=
  alookup ((getTable t table).getD []) id

/-- A well-formed snapshot value: no duplicate table names and no
duplicate record identifiers, as guaranteed for JavaScript objects. -/
def WfTables (t : Tables) : Prop :=
  (keys t).Nodup ∧ ∀ p ∈ t, (keys p.2).Nodup

/-! ### Association-list lemmas -/

theorem alookup_eq_none_of_not_mem_keys {α : Type} {l : List (String × α)}
    {k : String} (h : k ∉ keys l) : alookup l k = none := by
  induction l with
  | nil => rfl
  | cons p rest ih =>
      simp only [keys, List.map_cons, List.mem_cons, not_or] at h
      have hne : ¬ p.1 = k := fun he => h.1 he.symm
      simp only [alookup, if_neg hne]
      exact ih h.2

theorem mem_keys_of_alookup_isSome {α : Type} {l : List (String × α)}
    {k : String} (h : (alookup l k).isSome) : k ∈ keys l := by
  by_contra hk
  rw [alookup_eq_none_of_not_mem_keys hk] at h
  simp at h

theorem alookup_isSome_of_mem_keys {α : Type} {l : List (String × α)}
    {k : String} (h : k ∈ keys l) : (alookup l k).isSome := by
  induction l with
  | nil => simp [keys] at h
  | cons p rest ih =>
      simp only [keys, List.map_cons, List.mem_cons] at h
      by_cases hpk : p.1 = k
      · simp [alookup, hpk]
      · rcases h with h | h
        · exact absurd h.symm hpk
        · simp only [alookup, if_neg hpk]
          exact ih h

theorem mem_of_alookup_eq_some {α : Type} {l : List (String × α)}
    {k : String} {v : α} (h : alookup l k = some v) : (k, v) ∈ l := by
  induction l with
  | nil => simp [alookup] at h
  | cons p rest ih =>
      by_cases hpk : p.1 = k
      · simp only [alookup, if_pos hpk] at h
        injection h with hv
        have hp : p = (k, v) := by
          obtain ⟨a, b⟩ := p
          simp only at hpk hv
          simp [hpk, hv]
        rw [hp]
        exact List.mem_cons_self _ _
      · simp only [alookup, if_neg hpk] at h
        exact List.mem_cons_of_mem _ (ih h)

theorem alookup_self_of_nodup {α : Type} {l : List (String × α)}
    (hnd : (keys l).Nodup) {p : String × α} (hp : p ∈ l) :
    alookup l p.1 = some p.2 := by
  induction l with
  | nil => simp at hp
  | cons q rest ih =>
      simp only [keys, List.map_cons, List.nodup_cons] at hnd
      rcases List.mem_cons.mp hp with h | h
      · subst h
        simp [alookup]
      · have hq : q.1 ≠ p.1 := by
          intro he
          exact hnd.1 (he ▸ List.mem_map_of_mem Prod.fst h)
        simp only [alookup, if_neg hq]
        exact ih hnd.2 h

theorem alookup_objSet {α : Type} (m : List (String × α)) (k : String)
    (v : α) (x : String) :
    alookup (objSet m k v) x = if k = x then some v else alookup m x := by
  induction m with
  | nil => simp [objSet, alookup]
  | cons p rest ih =>
      by_cases hpk : p.1 = k
      · simp only [objSet, if_pos hpk]
        by_cases hkx : k = x
        · simp [alookup, hkx]
        · have hpx : ¬ p.1 = x := fun he => hkx (hpk.symm.trans he)
          simp [alookup, hkx, hpx]
      · simp only [objSet, if_neg hpk]
        by_cases hpx : p.1 = x
        · have hkx : ¬ k = x := fun he => hpk (hpx.trans he.symm)
          simp [alookup, hpx, hkx]
        · simp [alookup, hpx, ih]

theorem objSet_eq_append_of_not_mem {α : Type} {m : List (String × α)}
    {k : String} (h : k ∉ keys m) (v : α) :
    objSet m k v = m ++ [(k, v)] := by
  induction m with
  | nil => rfl
  | cons p rest ih =>
      simp only [keys, List.map_cons, List.mem_cons, not_or] at h
      have : p.1 ≠ k := fun he => h.1 he.symm
      simp [objSet, this, ih h.2]

theorem alookup_append {α : Type} (a b : List (String × α)) (k : String) :
    alookup (a ++ b) k =
      match alookup a k with
      | some v => some v
      | none => alookup b k := by
  induction a with
  | nil => simp [alookup]
  | cons p rest ih =>
      by_cases hpk : p.1 = k <;> simp [alookup, hpk, ih]

theorem keys_filter_subset {α : Type} (q : String × α → Bool)
    (l : List (String × α)) : keys (l.filter q) ⊆ keys l := by
  intro k hk
  simp only [keys, List.mem_map] at hk ⊢
  rcases hk with ⟨p, hp, hpk⟩
  exact ⟨p, List.mem_of_mem_filter hp, hpk⟩

theorem nodup_keys_filter {α : Type} {l : List (String × α)}
    (hnd : (keys l).Nodup) (q : String × α → Bool) :
    (keys (l.filter q)).Nodup :=
  List.Nodup.sublist ((List.filter_sublist l).map Prod.fst) hnd

theorem alookup_filter {α : Type} {l : List (String × α)}
    (hnd : (keys l).Nodup) (q : String × α → Bool) (k : String) :
    alookup (l.filter q) k =
      match alookup l k with
      | some v => if q (k, v) then some v else none
      | none => none := by
  induction l with
  | nil => simp [alookup]
  | cons p rest ih =>
      simp only [keys, List.map_cons, List.nodup_cons] at hnd
      by_cases hpk : p.1 = k
      · have hrest : alookup (rest.filter q) k = none := by
          apply alookup_eq_none_of_not_mem_keys
          intro hk
          exact hnd.1 (hpk ▸ keys_filter_subset q rest hk)
        have hp : p = (k, p.2) := by
          cases p
          simp_all
        by_cases hq : q p
        · rw [List.filter_cons_of_pos hq]
          simp only [alookup, if_pos hpk]
          rw [hp] at hq
          simp [hq]
        · rw [List.filter_cons_of_neg hq]
          simp only [alookup, if_pos hpk]
          rw [hp] at hq
          simp only [Bool.not_eq_true] at hq
          simp [hq, hrest]
      · by_cases hq : q p
        · rw [List.filter_cons_of_pos hq]
          simp only [alookup, if_neg hpk]
          exact ih hnd.2
        · rw [List.filter_cons_of_neg hq]
          simp only [alookup, if_neg hpk]
          exact ih hnd.2

theorem mem_keys_filter_imp {α : Type} {l : List (String × α)}
    {q : String × α → Bool} {k : String} (h : k ∈ keys (l.filter q)) :
    ∃ v, (k, v) ∈ l ∧ q (k, v) = true := by
  simp only [keys, List.mem_map] at h
  rcases h with ⟨p, hp, hpk⟩
  rcases List.mem_filter.mp hp with ⟨hmem, hq⟩
  refine ⟨p.2, ?_, ?_⟩
  · cases p
    simp_all
  · cases p
    simp_all

theorem foldl_guard_objSet {α : Type} (l : List (String × α))
    (q : String × α → Bool) (acc : List (String × α))
    (hnd : (keys l).Nodup) (hdisj : ∀ k ∈ keys l, k ∉ keys acc) :
    l.foldl (fun a p => if q p then objSet a p.1 p.2 else a) acc =
      acc ++ l.filter q := by
  induction l generalizing acc with
  | nil => simp
  | cons p rest ih =>
      simp only [keys, List.map_cons, List.nodup_cons] at hnd
      have hpacc : p.1 ∉ keys acc :=
        hdisj p.1 (by simp [keys])
      have hrest : ∀ k ∈ keys rest, k ∈ keys (p :: rest) := by
        intro k hk
        simp only [keys, List.map_cons, List.mem_cons]
        right
        exact hk
      by_cases hq : q p
      · rw [List.filter_cons_of_pos hq]
        simp only [List.foldl_cons, if_pos hq]
        have hset : objSet acc p.1 p.2 = acc ++ [(p.1, p.2)] :=
          objSet_eq_append_of_not_mem hpacc p.2
        have hdisj2 : ∀ k ∈ keys rest, k ∉ keys (acc ++ [(p.1, p.2)]) := by
          intro k hk
          simp only [keys, List.map_append, List.mem_append, List.map_cons,
            List.map_nil, List.mem_singleton, not_or]
          exact ⟨hdisj k (hrest k hk), fun h => hnd.1 (h ▸ hk)⟩
        rw [hset, ih (acc ++ [(p.1, p.2)]) hnd.2 hdisj2]
        simp
      · rw [List.filter_cons_of_neg hq]
        simp only [List.foldl_cons, if_neg hq]
        exact ih acc hnd.2 fun k hk => hdisj k (hrest k hk)

/-! ### Diff Engine (`diffTableEntries`, index.ts lines 179-227) -/

/-- Branch condition of index.ts line 208: the identifier is not in the
old table, so the record is an addition. -/
def addCond (oldT : TableRecordMap) (p : String × TableRecord) : Bool :=
  (alookup oldT p.1).isNone

/-- Branch condition of index.ts line 204: the identifier is in the old
table and `likelyTheSameObject` rejects the pair, so the record is a
modification. -/
def modCond (oldT : TableRecordMap) (p : String × TableRecord) : Bool :=
  match alookup oldT p.1 with
  | some o => !likelyTheSameObject p.2 o
  | none => false

/-- Branch condition of index.ts line 214: the identifier is not in the
new table, so the record is a removal. -/
def delCond (newT : TableRecordMap) (p : String × TableRecord) : Bool :=
  (alookup newT p.1).isNone

/-- The two loops of index.ts lines 202-218 for one table: the first loop
walks the new table and files each record as an addition or a
modification, the second walks the old table and files removals. -/
def diffTable (newT oldT : TableRecordMap) :
    TableRecordMap × TableRecordMap × TableRecordMap :=
  let am := newT.foldl
    (fun acc p =>
      (if addCond oldT p then objSet acc.1 p.1 p.2 else acc.1,
       if modCond oldT p then objSet acc.2 p.1 p.2 else acc.2))
    ([], [])
  let dels := oldT.foldl
    (fun acc p => if delCond newT p then objSet acc p.1 p.2 else acc) []
  (am.1, am.2, dels)

/-- Result of `diffTableEntries` (index.ts lines 221-226). -/
structure DiffResult where
  changeCount : Nat
  additions : Tables
  modifications : Tables
  removals : Tables

/-- Per-table result of `diffTableEntries`: for a table of the new
snapshot, the empty triple when the old snapshot (or its table) is absent
(index.ts lines 198-200, the `continue` after the empties are set),
otherwise the two diff loops. -/
def diffTableFor (oldObjects : Option Tables) (table : String)
    (newT : TableRecordMap) : TableRecordMap × TableRecordMap × TableRecordMap :=
  match oldObjects with
  | none => ([], [], [])
  | some old =>
      match getTable old table with
      | none => ([], [], [])
      | some oldT => diffTable newT oldT

/-- `diffTableEntries` (index.ts lines 179-227).  The loop ranges over
the tables of the new snapshot only; counters count loop iterations that
filed a record. -/
def diffTableEntries (oldObjects : Option Tables) (newObjects : Tables) :
    DiffResult :=
  let per := newObjects.map fun p => (p.1, diffTableFor oldObjects p.1 p.2)
  { changeCount := per.foldl
      (fun n q => n + q.2.1.length + q.2.2.1.length + q.2.2.2.length) 0
    additions := per.map fun q => (q.1, q.2.1)
    modifications := per.map fun q => (q.1, q.2.2.1)
    removals := per.map fun q => (q.1, q.2.2.2) }

/-! ### Reconciliation Buffer (`getModificationsToUpdate`, lines 115-165) -/

/-- Branch condition of index.ts line 153: the identifier was pending and
this tick's record is strictly equal (`===`) to the pending one, so the
update event fires now. -/
def settleCond (lastT : TableRecordMap) (p : String × TableRecord) : Bool :=
  match alookup lastT p.1 with
  | some prev => jsStrictEq p.2 prev
  | none => false

/-- Branch conditions of index.ts lines 148 and 155: the identifier is
new to the store, or pending with a record that is not strictly equal, so
the event is postponed to the next round. -/
def postponeCond (lastT : TableRecordMap) (p : String × TableRecord) : Bool :=
  match alookup lastT p.1 with
  | some prev => !jsStrictEq p.2 prev
  | none => true

/-- The body of the per-table loop of index.ts lines 131-160: the first
loop (lines 140-144) settles every pending identifier absent from this
tick's modifications; the second loop (lines 146-159) files each of this
tick's modifications as settled or postponed.  Returns
`(modificationsToUpdate[table], modificationsForNextInterval[table])`. -/
def reconcileTable (mt lastT : TableRecordMap) :
    TableRecordMap × TableRecordMap :=
  let settledFromLast := lastT.foldl
    (fun acc p => if (alookup mt p.1).isNone then objSet acc p.1 p.2 else acc)
    []
  mt.foldl
    (fun acc p =>
      (if settleCond lastT p then objSet acc.1 p.1 p.2 else acc.1,
       if postponeCond lastT p then objSet acc.2 p.1 p.2 else acc.2))
    (settledFromLast, [])

/-- The connector state feeding `getModificationsToUpdate`: the
`modificationsInStore` boolean (index.ts line 29) and the stored pending
map under `AIRTABLE_STORAGE_KEY_HANDLE_MULTI_UPDATES`. -/
structure BufferState where
  modificationsInStore : Bool
  stored : Tables
deriving Repr

/-- `getModificationsToUpdate` (index.ts lines 115-165): on the bootstrap
call the whole modifications object is stored and nothing is returned;
otherwise each subscribed table is reconciled against the stored pending
map, and the postponed entries are stored for the next run.  Returns the
settled modifications and the updated state. -/
def getModificationsToUpdate (tables : List String) (modifications : Tables)
    (st : BufferState) : Tables × BufferState :=
  if st.modificationsInStore = false then
    ([], ⟨true, modifications⟩)
  else
    let per := tables.map fun table =>
      (table,
        reconcileTable ((getTable modifications table).getD [])
          ((getTable st.stored table).getD []))
    (per.map fun q => (q.1, q.2.1), ⟨true, per.map fun q => (q.1, q.2.2)⟩)

/-- Iterated ticks of the reconciliation buffer: one
`getModificationsToUpdate` call per element of the modification list,
threading the state; returns the per-tick settled outputs. -/
def runTicks (tables : List String) (st : BufferState) :
    List Tables → List Tables × BufferState
  | [] => ([], st)
  | m :: ms =>
      let step := getModificationsToUpdate tables m st
      let rest := runTicks tables step.2 ms
      (step.1 :: rest.1, rest.2)

/-! ### Lookup characterizations of the two engines -/

theorem foldl_pair_split {X A B : Type} (l : List X) (f : A → X → A)
    (g : B → X → B) (a : A) (b : B) :
    l.foldl (fun ab x => (f ab.1 x, g ab.2 x)) (a, b) =
      (l.foldl f a, l.foldl g b) := by
  induction l generalizing a b with
  | nil => rfl
  | cons x rest ih => simpa using ih (f a x) (g b x)

theorem diffTable_additions (newT oldT : TableRecordMap)
    (hn : (keys newT).Nodup) (id : String) :
    alookup (diffTable newT oldT).1 id =
      match alookup newT id with
      | some r => if (alookup oldT id).isNone then some r else none
      | none => none := by
  have hsplit := foldl_pair_split newT
    (fun a p => if addCond oldT p then objSet a p.1 p.2 else a)
    (fun a p => if modCond oldT p then objSet a p.1 p.2 else a)
    ([] : TableRecordMap) ([] : TableRecordMap)
  have h1 : (diffTable newT oldT).1 = newT.filter (addCond oldT) := by
    rw [diffTable]
    simp only [hsplit]
    rw [foldl_guard_objSet newT (addCond oldT) [] hn (by intro k hk; simp [keys])]
    simp
  rw [h1, alookup_filter hn]
  cases halo : alookup newT id with
  | none => rfl
  | some r => simp [addCond]

theorem diffTable_modifications (newT oldT : TableRecordMap)
    (hn : (keys newT).Nodup) (id : String) :
    alookup (diffTable newT oldT).2.1 id =
      match alookup newT id, alookup oldT id with
      | some r, some o => if likelyTheSameObject r o then none else some r
      | _, _ => none := by
  have hsplit := foldl_pair_split newT
    (fun a p => if addCond oldT p then objSet a p.1 p.2 else a)
    (fun a p => if modCond oldT p then objSet a p.1 p.2 else a)
    ([] : TableRecordMap) ([] : TableRecordMap)
  have h1 : (diffTable newT oldT).2.1 = newT.filter (modCond oldT) := by
    rw [diffTable]
    simp only [hsplit]
    rw [foldl_guard_objSet newT (modCond oldT) [] hn (by intro k hk; simp [keys])]
    simp
  rw [h1, alookup_filter hn]
  cases halo : alookup newT id with
  | none => rfl
  | some r =>
      cases holo : alookup oldT id with
      | none => simp [modCond, holo]
      | some o =>
          simp only [modCond, holo]
          by_cases hl : likelyTheSameObject r o <;> simp [hl]

theorem diffTable_removals (newT oldT : TableRecordMap)
    (ho : (keys oldT).Nodup) (id : String) :
    alookup (diffTable newT oldT).2.2 id =
      match alookup oldT id with
      | some o => if (alookup newT id).isNone then some o else none
      | none => none := by
  have h1 : (diffTable newT oldT).2.2 = oldT.filter (delCond newT) := by
    rw [diffTable]
    rw [foldl_guard_objSet oldT (delCond newT) [] ho (by intro k hk; simp [keys])]
    simp
  rw [h1, alookup_filter ho]
  cases halo : alookup oldT id with
  | none => rfl
  | some o => simp [delCond]

theorem reconcileTable_components (mt lastT : TableRecordMap)
    (hm : (keys mt).Nodup) (hl : (keys lastT).Nodup) :
    reconcileTable mt lastT =
      (lastT.filter (fun p => (alookup mt p.1).isNone) ++
        mt.filter (settleCond lastT),
       mt.filter (postponeCond lastT)) := by
  have hfirst : lastT.foldl
      (fun acc p => if (alookup mt p.1).isNone then objSet acc p.1 p.2 else acc)
      [] = lastT.filter (fun p => (alookup mt p.1).isNone) := by
    rw [foldl_guard_objSet lastT _ [] hl (by intro k hk; simp [keys])]
    simp
  have hdisj : ∀ k ∈ keys mt,
      k ∉ keys (lastT.filter (fun p => (alookup mt p.1).isNone)) := by
    intro k hk hcontra
    rcases mem_keys_filter_imp hcontra with ⟨v, _, hq⟩
    have hs := alookup_isSome_of_mem_keys hk
    simp only [Option.isNone_iff_eq_none] at hq
    rw [hq] at hs
    simp at hs
  have hsplit := foldl_pair_split mt
    (fun a p => if settleCond lastT p then objSet a p.1 p.2 else a)
    (fun a p => if postponeCond lastT p then objSet a p.1 p.2 else a)
    (lastT.filter (fun p => (alookup mt p.1).isNone)) ([] : TableRecordMap)
  simp only [reconcileTable, hfirst]
  rw [hsplit]
  rw [foldl_guard_objSet mt (settleCond lastT) _ hm hdisj]
  rw [foldl_guard_objSet mt (postponeCond lastT) [] hm (by intro k hk; simp [keys])]
  simp

theorem reconcileTable_settled_lookup (mt lastT : TableRecordMap)
    (hm : (keys mt).Nodup) (hl : (keys lastT).Nodup) (id : String) :
    alookup (reconcileTable mt lastT).1 id =
      match alookup mt id, alookup lastT id with
      | none, some prev => some prev
      | some cur, some prev => if jsStrictEq cur prev then some cur else none
      | _, none => none := by
  rw [reconcileTable_components mt lastT hm hl]
  simp only
  rw [alookup_append, alookup_filter hl, alookup_filter hm]
  cases hmt : alookup mt id with
  | none =>
      cases hlt : alookup lastT id with
      | none => simp
      | some prev => simp [hmt]
  | some cur =>
      cases hlt : alookup lastT id with
      | none => simp [hmt, settleCond, hlt]
      | some prev =>
          simp only [hmt, Option.isNone_some, Bool.false_eq_true, if_false]
          simp only [settleCond, hlt]

theorem reconcileTable_next_lookup (mt lastT : TableRecordMap)
    (hm : (keys mt).Nodup) (hl : (keys lastT).Nodup) (id : String) :
    alookup (reconcileTable mt lastT).2 id =
      match alookup mt id, alookup lastT id with
      | some cur, some prev => if jsStrictEq cur prev then none else some cur
      | some cur, none => some cur
      | none, _ => none := by
  rw [reconcileTable_components mt lastT hm hl]
  simp only
  rw [alookup_filter hm]
  cases hmt : alookup mt id with
  | none =>
      cases hlt : alookup lastT id <;> simp
  | some cur =>
      cases hlt : alookup lastT id with
      | none => simp [postponeCond, hlt]
      | some prev =>
          simp only [postponeCond, hlt]
          by_cases hje : jsStrictEq cur prev <;> simp [hje]

theorem alookup_map_entry {α : Type} (l : List (String × α))
    {β : Type} (g : String → α → β) (k : String) :
    alookup (l.map fun p => (p.1, g p.1 p.2)) k =
      (alookup l k).map (g k) := by
  induction l with
  | nil => rfl
  | cons p rest ih =>
      by_cases hpk : p.1 = k
      · subst hpk
        simp [alookup]
      · simp [alookup, hpk, ih]

theorem alookup_map_of_fn {α : Type} (l : List String) (f : String → α)
    (k : String) :
    alookup (l.map fun t => (t, f t)) k =
      if k ∈ l then some (f k) else none := by
  induction l with
  | nil => simp [alookup]
  | cons t rest ih =>
      by_cases htk : t = k
      · subst htk
        simp [alookup]
      · have : ¬ k = t := fun he => htk he.symm
        simp [alookup, htk, this, ih]

theorem alookup_map_fst_proj {α β : Type} (l : List String)
    (f : String → α × β) (k : String) :
    alookup ((l.map fun t => (t, f t)).map fun q => (q.1, q.2.1)) k =
      if k ∈ l then some (f k).1 else none := by
  rw [List.map_map]
  have h : ((fun q : String × (α × β) => (q.1, q.2.1)) ∘ fun t => (t, f t)) =
      fun t => (t, (f t).1) := rfl
  rw [h, alookup_map_of_fn]

theorem alookup_map_snd_proj {α β : Type} (l : List String)
    (f : String → α × β) (k : String) :
    alookup ((l.map fun t => (t, f t)).map fun q => (q.1, q.2.2)) k =
      if k ∈ l then some (f k).2 else none := by
  rw [List.map_map]
  have h : ((fun q : String × (α × β) => (q.1, q.2.2)) ∘ fun t => (t, f t)) =
      fun t => (t, (f t).2) := rfl
  rw [h, alookup_map_of_fn]

theorem gmtu_settled_table (tables : List String) (modifications : Tables)
    (st : BufferState) (hs : st.modificationsInStore = true)
    {T : String} (hT : T ∈ tables) :
    getTable (getModificationsToUpdate tables modifications st).1 T =
      some (reconcileTable ((getTable modifications T).getD [])
        ((getTable st.stored T).getD [])).1 := by
  simp only [getModificationsToUpdate, hs, Bool.true_eq_false, if_false]
  simp only [getTable]
  rw [alookup_map_fst_proj tables
    (fun t => reconcileTable ((alookup modifications t).getD [])
      ((alookup st.stored t).getD [])) T]
  rw [if_pos hT]

theorem gmtu_next_table (tables : List String) (modifications : Tables)
    (st : BufferState) (hs : st.modificationsInStore = true)
    {T : String} (hT : T ∈ tables) :
    getTable (getModificationsToUpdate tables modifications st).2.stored T =
      some (reconcileTable ((getTable modifications T).getD [])
        ((getTable st.stored T).getD [])).2 := by
  simp only [getModificationsToUpdate, hs, Bool.true_eq_false, if_false]
  simp only [getTable]
  rw [alookup_map_snd_proj tables
    (fun t => reconcileTable ((alookup modifications t).getD [])
      ((alookup st.stored t).getD [])) T]
  rw [if_pos hT]

theorem gmtu_flag_true (tables : List String) (modifications : Tables)
    (st : BufferState) :
    (getModificationsToUpdate tables modifications st).2.modificationsInStore
      = true := by
  simp only [getModificationsToUpdate]
  by_cases hs : st.modificationsInStore = false <;> simp [hs]

theorem diffTableEntries_additions_table (oldObjects : Option Tables)
    (newObjects : Tables) (T : String) :
    getTable (diffTableEntries oldObjects newObjects).additions T =
      (getTable newObjects T).map
        (fun newT => (diffTableFor oldObjects T newT).1) := by
  simp only [diffTableEntries, getTable, List.map_map]
  have h : ((fun q : String × (TableRecordMap × TableRecordMap × TableRecordMap) =>
      (q.1, q.2.1)) ∘ fun p : String × TableRecordMap =>
      (p.1, diffTableFor oldObjects p.1 p.2)) =
      fun p : String × TableRecordMap =>
        (p.1, (diffTableFor oldObjects p.1 p.2).1) := rfl
  rw [h]
  exact alookup_map_entry newObjects
    (fun k v => (diffTableFor oldObjects k v).1) T

theorem diffTableEntries_modifications_table (oldObjects : Option Tables)
    (newObjects : Tables) (T : String) :
    getTable (diffTableEntries oldObjects newObjects).modifications T =
      (getTable newObjects T).map
        (fun newT => (diffTableFor oldObjects T newT).2.1) := by
  simp only [diffTableEntries, getTable, List.map_map]
  have h : ((fun q : String × (TableRecordMap × TableRecordMap × TableRecordMap) =>
      (q.1, q.2.2.1)) ∘ fun p : String × TableRecordMap =>
      (p.1, diffTableFor oldObjects p.1 p.2)) =
      fun p : String × TableRecordMap =>
        (p.1, (diffTableFor oldObjects p.1 p.2).2.1) := rfl
  rw [h]
  exact alookup_map_entry newObjects
    (fun k v => (diffTableFor oldObjects k v).2.1) T

theorem diffTableEntries_removals_table (oldObjects : Option Tables)
    (newObjects : Tables) (T : String) :
    getTable (diffTableEntries oldObjects newObjects).removals T =
      (getTable newObjects T).map
        (fun newT => (diffTableFor oldObjects T newT).2.2) := by
  simp only [diffTableEntries, getTable, List.map_map]
  have h : ((fun q : String × (TableRecordMap × TableRecordMap × TableRecordMap) =>
      (q.1, q.2.2.2)) ∘ fun p : String × TableRecordMap =>
      (p.1, diffTableFor oldObjects p.1 p.2)) =
      fun p : String × TableRecordMap =>
        (p.1, (diffTableFor oldObjects p.1 p.2).2.2) := rfl
  rw [h]
  exact alookup_map_entry newObjects
    (fun k v => (diffTableFor oldObjects k v).2.2) T

/-! ### Snapshot Fetcher (`getAllBaseRecords`, index.ts lines 229-252) -/

/-- Outcome of reading one table from the record-store collaborator
(spec section 6: a lazy sequence of record pages followed to exhaustion):
the pages the collaborator delivered, and whether it then raised an
error instead of signalling exhaustion. -/
structure FetchOutcome where
  pages : List (List TableRecord)
  fails : Bool

/-- The `eachPage` callback of index.ts lines 240-246: the records of
every delivered page are written into `objects[table]` one by one, keyed
by `record.id`, as the pages arrive. -/
def pageRecords (outcome : FetchOutcome) : TableRecordMap :=
  outcome.pages.flatten.foldl (fun m r => objSet m r.id r) []

/-- The loop of `getAllBaseRecords` over the registered events' tables:
`objects[table]` is reset to empty and refilled from the pages the
collaborator delivers; an error raised after some pages leaves those
records in place, is caught and logged (line 248), and the loop moves to
the next table.  The second component collects the logged tables. -/
def getAllBaseRecordsAux (fetch : String → FetchOutcome) :
    List String → Tables × List String → Tables × List String
  | [], acc => acc
  | t :: rest, acc =>
      getAllBaseRecordsAux fetch rest
        (objSet acc.1 t (pageRecords (fetch t)),
         acc.2 ++ if (fetch t).fails then [t] else [])

/-- `getAllBaseRecords` (index.ts lines 229-252): the snapshot assembled
from the event tables, with per-table failures logged and skipped. -/
def getAllBaseRecords (eventTables : List String)
    (fetch : String → FetchOutcome) : Tables × List String :=
  getAllBaseRecordsAux fetch eventTables ([], [])

theorem gabr_aux_table (fetch : String → FetchOutcome) (ts : List String)
    (acc : Tables × List String) (t : String) :
    getTable (getAllBaseRecordsAux fetch ts acc).1 t =
      if t ∈ ts then some (pageRecords (fetch t)) else getTable acc.1 t := by
  induction ts generalizing acc with
  | nil => simp [getAllBaseRecordsAux]
  | cons x rest ih =>
      simp only [getAllBaseRecordsAux]
      rw [ih]
      by_cases hmem : t ∈ rest
      · simp [hmem]
      · by_cases hxt : x = t
        · subst hxt
          simp [hmem, getTable, alookup_objSet]
        · have hne : ¬ t = x := fun he => hxt he.symm
          simp [hmem, hxt, hne, getTable, alookup_objSet]

theorem gabr_aux_errors_mono (fetch : String → FetchOutcome)
    (ts : List String) (acc : Tables × List String) {e : String}
    (he : e ∈ acc.2) : e ∈ (getAllBaseRecordsAux fetch ts acc).2 := by
  induction ts generalizing acc with
  | nil => exact he
  | cons x rest ih =>
      simp only [getAllBaseRecordsAux]
      exact ih _ (List.mem_append_left _ he)

theorem gabr_aux_errors_mem (fetch : String → FetchOutcome)
    (ts : List String) (acc : Tables × List String) {t : String}
    (ht : t ∈ ts) (hf : (fetch t).fails = true) :
    t ∈ (getAllBaseRecordsAux fetch ts acc).2 := by
  induction ts generalizing acc with
  | nil => simp at ht
  | cons x rest ih =>
      simp only [getAllBaseRecordsAux]
      rcases List.mem_cons.mp ht with h | h
      · subst h
        apply gabr_aux_errors_mono
        simp [hf]
      · exact ih _ h

/-! ### Event registration (`on`, index.ts lines 42-60) -/

/-- Normalized event options as held by a registered subscription: `on`
forces `fireWhileTyping` to a boolean before registering. -/
structure EventOptions where
  type : String
  table : String
  fireWhileTyping : Bool
deriving DecidableEq, Repr

/-- Event options as supplied by the caller of `on`: before the runtime
check, `fireWhileTyping` may be absent (`none`, i.e. `undefined`) or hold
any JavaScript value. -/
structure EventOptionsIn where
  type : String
  table : String
  fireWhileTyping : Option Jval
deriving DecidableEq, Repr

/-- The runtime test `typeof options.fireWhileTyping === 'boolean'`
behind index.ts line 54. -/
def typeofIsBoolean : Option Jval → Bool
  | some (.bool _) => true
  | _ => false

/-- The mutation of index.ts lines 54-56: a `fireWhileTyping` that is
not a boolean is replaced by `false`; a boolean is kept. -/
def normalizeOptions (o : EventOptionsIn) : EventOptions :=
  ⟨o.type, o.table,
    match o.fireWhileTyping with
    | some (.bool b) => b
    | _ => false⟩

/-- The accepted event types of index.ts line 47. -/
def validEventTypes : List String :=
  ["RecordAdded", "RecordModified", "RecordDeleted"]

/-- The default event identifier of index.ts line 52. -/
def defaultEventId (o : EventOptionsIn) (connectorId : String) : String :=
  "AIRTABLE/" ++ o.type ++ "/" ++ o.table ++ "/" ++ connectorId

/-- The event identifier `on` registers under (index.ts lines 51-53). -/
def resolvedEventId (o : EventOptionsIn) (eventId : Option String)
    (connectorId : String) : String :=
  match eventId with
  | some e => e
  | none => defaultEventId o connectorId

/-- `on` (index.ts lines 42-60): an invalid event type throws before
anything is registered; otherwise the options are normalized and
registered under the resolved event identifier.  The throw is the
`Except.error` case.  `eventManager.addEvent` is code of a different
package; modelled from the spec: the registry is a map keyed by event
identifier in which a later duplicate identifier overwrites (spec
section 3).  Named `onEvent` because `on` is a reserved token in
Lean. -/
def onEvent (o : EventOptionsIn) (eventId : Option String) (connectorId : String)
    (registry : List (String × EventOptions)) :
    Except String (List (String × EventOptions) × String) :=
  if validEventTypes.contains o.type = false then
    Except.error ("Invalid event type: " ++ o.type)
  else
    Except.ok
      (objSet registry (resolvedEventId o eventId connectorId)
        (normalizeOptions o),
       resolvedEventId o eventId connectorId)

/-- The registry as the caller sees it after calling `on`: a thrown
error propagates before `addEvent` runs, leaving the registry as it
was. -/
def registryAfter (o : EventOptionsIn) (eventId : Option String)
    (connectorId : String) (registry : List (String × EventOptions)) :
    List (String × EventOptions) :=
  match onEvent o eventId connectorId registry with
  | .ok r => r.1
  | .error _ => registry

/-- `getTables` (index.ts lines 167-177): the tables of the registered
events collected into a JavaScript `Set` — first-insertion order, no
duplicates. -/
def getTables (events : List EventOptions) : List String :=
  events.foldl (fun acc e => if e.table ∈ acc then acc else acc ++ [e.table]) []

/-! ### Event Dispatcher (`onInterval`, index.ts lines 62-105) -/

/-- Which of the four `eventManager.fire` blocks of `onInterval` a call
belongs to. -/
inductive FireKind where
  | recordAdded : FireKind
  | settledModified : FireKind
  | rawModified : FireKind
  | recordDeleted : FireKind
deriving DecidableEq, Repr

/-- One `eventManager.fire` call of `onInterval`: its block, its table,
and the `Object.values(...)` record list passed to it. -/
structure FireCall where
  kind : FireKind
  table : String
  records : List TableRecord
deriving DecidableEq, Repr

/-- The subscription predicate each block passes to `fire` (index.ts
lines 75, 81-84, 90-93 and 99): the settled-modification block requires
`!fireWhileTyping`, the raw block requires `fireWhileTyping`. -/
def matchesFire (k : FireKind) (table : String) (s : EventOptions) : Bool :=
  match k with
  | .recordAdded => s.type == "RecordAdded" && s.table == table
  | .settledModified =>
      s.type == "RecordModified" && s.table == table && !s.fireWhileTyping
  | .rawModified =>
      s.type == "RecordModified" && s.table == table && s.fireWhileTyping
  | .recordDeleted => s.type == "RecordDeleted" && s.table == table

/-- One guarded block of `onInterval`: the `if` tests JavaScript
truthiness of the table's entry, and any object — an empty one included —
is truthy, so the call happens exactly when the key is present. -/
def fireBlock (k : FireKind) (t : String) (m : Option TableRecordMap) :
    List FireCall :=
  match m with
  | some recs => [⟨k, t, recs.map Prod.snd⟩]
  | none => []

/-- The sequence of `eventManager.fire` calls of one `onInterval` tick
(index.ts lines 71-104) in program order, each awaited before the next:
the loop over the watched tables, four guarded blocks per table. -/
def onIntervalFires (tables : List String) (diff : DiffResult)
    (updatedModifications : Tables) : List FireCall :=
  if 0 < tables.length then
    (tables.map fun table =>
      fireBlock .recordAdded table (getTable diff.additions table) ++
      fireBlock .settledModified table (getTable updatedModifications table) ++
      fireBlock .rawModified table (getTable diff.modifications table) ++
      fireBlock .recordDeleted table (getTable diff.removals table)).flatten
  else []

/-- Modelled from the spec: section 4.4's dispatch order, "for each
watched table (in a stable discovery order), additions, then settled
modifications, then raw modifications, then removals", a block present
exactly when the tick produced a table entry for it. -/
def specDispatchOrder (tables : List String) (diff : DiffResult)
    (updatedModifications : Tables) : List FireCall :=
  tables.flatMap fun table =>
    ((getTable diff.additions table).map fun m =>
        FireCall.mk .recordAdded table (m.map Prod.snd)).toList ++
    ((getTable updatedModifications table).map fun m =>
        FireCall.mk .settledModified table (m.map Prod.snd)).toList ++
    ((getTable diff.modifications table).map fun m =>
        FireCall.mk .rawModified table (m.map Prod.snd)).toList ++
    ((getTable diff.removals table).map fun m =>
        FireCall.mk .recordDeleted table (m.map Prod.snd)).toList

/-- Modelled from the spec: section 3's data-model language — field maps
are order-irrelevant mappings of field name to value, and deep-structural
equality is equality as finite maps: the same value, or absence, under
every key of either map. -/
def specFieldMapEq (f1 f2 : FieldMap) : Bool :=
  (keys f1 ++ keys f2).all fun k => decide (alookup f1 k = alookup f2 k)

/-! ### Shared helper lemmas for the claims -/

theorem likelyTheSameObject_refl (r : TableRecord) :
    likelyTheSameObject r r = true := by
  simp [likelyTheSameObject]

theorem jsStrictEq_eq_false_of_ne {r1 r2 : TableRecord} (h : r1 ≠ r2) :
    jsStrictEq r1 r2 = false := by
  simp [jsStrictEq, h]

/-- The unchanged class of the diff for one table: identifiers present
in both tables whose records the diff's equality test accepts (the
no-event branch behind index.ts line 204). -/
def unchangedAt (newT oldT : TableRecordMap) (id : String) : Bool :=
  match alookup newT id, alookup oldT id with
  | some r, some o => likelyTheSameObject r o
  | _, _ => false

/-! ### Claim C1 -/

def c1prev : TableRecord := ⟨0, "rec1", [("name", .str "x")]⟩

def c1cur : TableRecord := ⟨1, "rec1", [("name", .str "x")]⟩

def c1pending : Tables := [("T", [("rec1", c1prev)])]

def c1mods : Tables := [("T", [("rec1", c1cur)])]

/-- C1: the claim says an identifier present in this tick's raw
modifications and in the persisted pending map with an equal field-map is
settled this tick and dropped from the next pending map.  The code
compares the two records with `===` (line 153), which for objects is
identity, not field-map equality — contradicting its own comment
"modification in store and values are equal ==> fire update event".  At
the failing input — the pending record and a fresh record object carrying
the identical field map — the identifier is postponed to the next pending
map and nothing is settled. -/
theorem airtable_c1_buffer_requires_identity :
    likelyTheSameObject c1cur c1prev = true ∧
    specFieldMapEq c1cur.fields c1prev.fields = true ∧
    recLookup (getModificationsToUpdate ["T"] c1mods ⟨true, c1pending⟩).1
      "T" "rec1" = none ∧
    recLookup (getModificationsToUpdate ["T"] c1mods ⟨true, c1pending⟩).2.stored
      "T" "rec1" = some c1cur := by
  decide

/-! ### Claim C2 -/

def c2recOld : TableRecord := ⟨0, "rec1", [("a", .str "1"), ("b", .str "2")]⟩

def c2recNew : TableRecord := ⟨0, "rec1", [("b", .str "2"), ("a", .str "1")]⟩

/-- C2 (counterexample): two records with the same identifier whose
field-maps are deep-structurally equal as order-irrelevant maps, but
stored in different key orders, are classified as a modification by the
Diff Engine — refuting "equal iff the field-maps are deep-structurally
equal". -/
theorem airtable_c2_counterexample :
    specFieldMapEq c2recNew.fields c2recOld.fields = true ∧
    recLookup (diffTableEntries (some [("T", [("rec1", c2recOld)])])
        [("T", [("rec1", c2recNew)])]).modifications "T" "rec1"
      = some c2recNew := by
  decide

/-- C2 (amended): for records with a common identifier present in both
tables, the Diff Engine classifies the pair as unmodified iff the JSON
serializations of the two field maps — in stored key order — are equal;
and the Reconciliation Buffer settles an identifier present both in this
tick's modifications and in the pending store iff the two records are
strictly equal (`===`, object identity).  The two components do not share
one equality function. -/
theorem airtable_c2_two_equality_tests
    (newT oldT mt lastT : TableRecordMap) (i j : String)
    (r o cur prev : TableRecord)
    (hnn : (keys newT).Nodup) (hnm : (keys mt).Nodup)
    (hnl : (keys lastT).Nodup)
    (hn : alookup newT i = some r) (ho : alookup oldT i = some o)
    (hc : alookup mt j = some cur) (hp : alookup lastT j = some prev) :
    (alookup (diffTable newT oldT).2.1 i = none ↔
      likelyTheSameObject r o = true) ∧
    (alookup (reconcileTable mt lastT).1 j = some cur ↔ cur = prev) := by
  constructor
  · rw [diffTable_modifications newT oldT hnn i, hn, ho]
    by_cases hl : likelyTheSameObject r o <;> simp [hl]
  · rw [reconcileTable_settled_lookup mt lastT hnm hnl j, hc, hp]
    simp only [jsStrictEq]
    by_cases hcp : cur = prev <;> simp [hcp]

def c2wPrev : TableRecord := ⟨7, "w1", [("v", .num 3)]⟩

def c2wCur : TableRecord := ⟨8, "w1", [("v", .num 3)]⟩

theorem airtable_c2_two_equality_tests_witness :
    (alookup (diffTable [("rec1", c2recNew)] [("rec1", c2recOld)]).2.1 "rec1"
        = none ↔ likelyTheSameObject c2recNew c2recOld = true) ∧
    (alookup (reconcileTable [("w1", c2wCur)] [("w1", c2wPrev)]).1 "w1"
        = some c2wCur ↔ c2wCur = c2wPrev) :=
  airtable_c2_two_equality_tests [("rec1", c2recNew)] [("rec1", c2recOld)]
    [("w1", c2wCur)] [("w1", c2wPrev)] "rec1" "w1"
    c2recNew c2recOld c2wCur c2wPrev
    (by decide) (by decide) (by decide) (by decide) (by decide) (by decide)
    (by decide)

/-! ### Claim C7 -/

/-- C7: per-tick dispatch order is deterministic — for each watched
table, in the stable discovery order of the watched-table list, the
additions block fires first, then the settled-modifications block (whose
predicate selects RecordModified subscriptions with `fireWhileTyping`
false), then the raw-modifications block (`fireWhileTyping` true), then
the removals block, each block awaited before the next; the program-order
call list of the embedded `onInterval` equals the spec's dispatch
order. -/
theorem airtable_c7_dispatch_order (tables : List String)
    (diff : DiffResult) (updatedModifications : Tables) :
    onIntervalFires tables diff updatedModifications =
      specDispatchOrder tables diff updatedModifications := by
  have hblock : ∀ (k : FireKind) (t : String) (m : Option TableRecordMap),
      fireBlock k t m =
        (m.map fun recs => FireCall.mk k t (recs.map Prod.snd)).toList := by
    intro k t m
    cases m <;> rfl
  cases tables with
  | nil => simp [onIntervalFires, specDispatchOrder]
  | cons x rest =>
      simp [onIntervalFires, specDispatchOrder, List.flatMap, hblock]

/-! ### Claim C8 -/

/-- C8: diffing a snapshot against itself yields empty additions, empty
modifications and empty removals for every table and identifier. -/
theorem airtable_c8_diff_self_empty (S : Tables) (hw : WfTables S)
    (T id : String) :
    recLookup (diffTableEntries (some S) S).additions T id = none ∧
    recLookup (diffTableEntries (some S) S).modifications T id = none ∧
    recLookup (diffTableEntries (some S) S).removals T id = none := by
  have hadd := diffTableEntries_additions_table (some S) S T
  have hmod := diffTableEntries_modifications_table (some S) S T
  have hrem := diffTableEntries_removals_table (some S) S T
  cases hS : getTable S T with
  | none =>
      refine ⟨?_, ?_, ?_⟩ <;>
        simp [recLookup, hadd, hmod, hrem, hS, alookup]
  | some sT =>
      have hmem := mem_of_alookup_eq_some (show alookup S T = some sT from hS)
      have hnd : (keys sT).Nodup := hw.2 _ hmem
      have hdf : diffTableFor (some S) T sT = diffTable sT sT := by
        simp [diffTableFor, hS]
      refine ⟨?_, ?_, ?_⟩
      · rw [recLookup, hadd, hS]
        simp only [Option.map_some', Option.getD_some, hdf]
        rw [diffTable_additions sT sT hnd id]
        cases hid : alookup sT id with
        | none => rfl
        | some r => simp [hid]
      · rw [recLookup, hmod, hS]
        simp only [Option.map_some', Option.getD_some, hdf]
        rw [diffTable_modifications sT sT hnd id]
        cases hid : alookup sT id with
        | none => rfl
        | some r => simp [likelyTheSameObject_refl]
      · rw [recLookup, hrem, hS]
        simp only [Option.map_some', Option.getD_some, hdf]
        rw [diffTable_removals sT sT hnd id]
        cases hid : alookup sT id with
        | none => rfl
        | some r => simp [hid]

def c8snap : Tables := [("T", [("a", ⟨0, "a", [("f", .num 1)]⟩)])]

theorem airtable_c8_diff_self_empty_witness :
    recLookup (diffTableEntries (some c8snap) c8snap).additions "T" "a" = none ∧
    recLookup (diffTableEntries (some c8snap) c8snap).modifications "T" "a"
      = none ∧
    recLookup (diffTableEntries (some c8snap) c8snap).removals "T" "a" = none :=
  airtable_c8_diff_self_empty c8snap ⟨by decide, by decide⟩ "T" "a"

/-! ### Claim C3 -/

def c3rec : TableRecord := ⟨0, "a", [("f", .num 1)]⟩

def c3old : Tables := [("T", [("a", c3rec)])]

/-- C3 (counterexample): when a table occurs only in the old snapshot,
the diff files its identifier nowhere — it is not an addition, not a
modification, not a removal, and not unchanged (it is absent from the new
snapshot) — so additions, modifications, removals and unchanged do not
cover the union of the old and new identifiers of that table. -/
theorem airtable_c3_counterexample :
    recLookup c3old "T" "a" = some c3rec ∧
    recLookup (diffTableEntries (some c3old) []).additions "T" "a" = none ∧
    recLookup (diffTableEntries (some c3old) []).modifications "T" "a" = none ∧
    recLookup (diffTableEntries (some c3old) []).removals "T" "a" = none ∧
    recLookup ([] : Tables) "T" "a" = none := by
  decide

/-- Whether the diff filed an identifier as an addition for a table. -/
def diffAdditionsAt (old new : Tables) (T id : String) : Bool :=
  (recLookup (diffTableEntries (some old) new).additions T id).isSome

/-- Whether the diff filed an identifier as a modification for a
table. -/
def diffModificationsAt (old new : Tables) (T id : String) : Bool :=
  (recLookup (diffTableEntries (some old) new).modifications T id).isSome

/-- Whether the diff filed an identifier as a removal for a table. -/
def diffRemovalsAt (old new : Tables) (T id : String) : Bool :=
  (recLookup (diffTableEntries (some old) new).removals T id).isSome

/-- C3 (amended): for every table present in BOTH snapshots, additions,
modifications, removals and unchanged are pairwise disjoint and cover
exactly the union of the old and new identifiers of the table, an
addition is absent from the old table and present in the new, and a
removal is absent from the new table and present in the old.  For a table
present in only one snapshot the diff emits no entries at all (an
old-only table is dropped entirely; a new-only table gets empty maps, the
bootstrap behaviour), so the partition fails there, as the counterexample
shows. -/
theorem airtable_c3_partition (old new : Tables) (T : String)
    (oldT newT : TableRecordMap)
    (hOld : getTable old T = some oldT) (hNew : getTable new T = some newT)
    (hno : (keys oldT).Nodup) (hnn : (keys newT).Nodup) (id : String) :
    (diffAdditionsAt old new T id && diffModificationsAt old new T id)
      = false ∧
    (diffAdditionsAt old new T id && diffRemovalsAt old new T id) = false ∧
    (diffAdditionsAt old new T id && unchangedAt newT oldT id) = false ∧
    (diffModificationsAt old new T id && diffRemovalsAt old new T id)
      = false ∧
    (diffModificationsAt old new T id && unchangedAt newT oldT id) = false ∧
    (diffRemovalsAt old new T id && unchangedAt newT oldT id) = false ∧
    (diffAdditionsAt old new T id || diffModificationsAt old new T id ||
        diffRemovalsAt old new T id || unchangedAt newT oldT id)
      = ((alookup oldT id).isSome || (alookup newT id).isSome) ∧
    (diffAdditionsAt old new T id = true →
      alookup oldT id = none ∧ (alookup newT id).isSome = true) ∧
    (diffRemovalsAt old new T id = true →
      alookup newT id = none ∧ (alookup oldT id).isSome = true) := by
  have hdf : diffTableFor (some old) T newT = diffTable newT oldT := by
    simp [diffTableFor, hOld]
  have hA : recLookup (diffTableEntries (some old) new).additions T id =
      alookup (diffTable newT oldT).1 id := by
    rw [recLookup, diffTableEntries_additions_table, hNew]
    simp [hdf]
  have hM : recLookup (diffTableEntries (some old) new).modifications T id =
      alookup (diffTable newT oldT).2.1 id := by
    rw [recLookup, diffTableEntries_modifications_table, hNew]
    simp [hdf]
  have hR : recLookup (diffTableEntries (some old) new).removals T id =
      alookup (diffTable newT oldT).2.2 id := by
    rw [recLookup, diffTableEntries_removals_table, hNew]
    simp [hdf]
  simp only [diffAdditionsAt, diffModificationsAt, diffRemovalsAt, hA, hM, hR]
  rw [diffTable_additions newT oldT hnn id,
    diffTable_modifications newT oldT hnn id,
    diffTable_removals newT oldT hno id]
  simp only [unchangedAt]
  cases hn : alookup newT id with
  | none =>
      cases ho : alookup oldT id with
      | none => simp
      | some o => simp
  | some r =>
      cases ho : alookup oldT id with
      | none => simp
      | some o => by_cases hl : likelyTheSameObject r o <;> simp [hl]

theorem airtable_c3_partition_witness :
    (diffAdditionsAt c3old c3old "T" "a" &&
      diffModificationsAt c3old c3old "T" "a") = false ∧
    (diffAdditionsAt c3old c3old "T" "a" &&
      diffRemovalsAt c3old c3old "T" "a") = false ∧
    (diffAdditionsAt c3old c3old "T" "a" &&
      unchangedAt [("a", c3rec)] [("a", c3rec)] "a") = false ∧
    (diffModificationsAt c3old c3old "T" "a" &&
      diffRemovalsAt c3old c3old "T" "a") = false ∧
    (diffModificationsAt c3old c3old "T" "a" &&
      unchangedAt [("a", c3rec)] [("a", c3rec)] "a") = false ∧
    (diffRemovalsAt c3old c3old "T" "a" &&
      unchangedAt [("a", c3rec)] [("a", c3rec)] "a") = false ∧
    (diffAdditionsAt c3old c3old "T" "a" ||
        diffModificationsAt c3old c3old "T" "a" ||
        diffRemovalsAt c3old c3old "T" "a" ||
        unchangedAt [("a", c3rec)] [("a", c3rec)] "a")
      = ((alookup [("a", c3rec)] "a").isSome ||
        (alookup [("a", c3rec)] "a").isSome) ∧
    (diffAdditionsAt c3old c3old "T" "a" = true →
      alookup [("a", c3rec)] "a" = none ∧
      (alookup [("a", c3rec)] "a").isSome = true) ∧
    (diffRemovalsAt c3old c3old "T" "a" = true →
      alookup [("a", c3rec)] "a" = none ∧
      (alookup [("a", c3rec)] "a").isSome = true) :=
  airtable_c3_partition c3old c3old "T" [("a", c3rec)] [("a", c3rec)]
    (by decide) (by decide) (by decide) (by decide) "a"

/-! ### Claim C6 -/

def c6rec : TableRecord := ⟨0, "r1", [("f", .num 1)]⟩

def c6fetch : String → FetchOutcome := fun t =>
  if t = "T1" then ⟨[[c6rec]], true⟩ else ⟨[], false⟩

/-- C6 (counterexample): a fetch that fails after delivering one page
leaves that page's records — not an empty table — as the table's
contribution to this tick's snapshot. -/
theorem airtable_c6_counterexample :
    (c6fetch "T1").fails = true ∧
    getTable (getAllBaseRecords ["T1", "T2"] c6fetch).1 "T1"
      = some [("r1", c6rec)] ∧
    some [("r1", c6rec)] ≠ some ([] : TableRecordMap) := by
  decide

/-- C6 (amended): if fetching a table fails, that table's contribution
for this tick is exactly the records of the pages delivered before the
failure — an empty table when the failure precedes the first page, but
partial contents otherwise — the failed table is reported (logged), and
fetching proceeds for every subscribed table (each gets its entry in the
snapshot). -/
theorem airtable_c6_fetch_isolation (eventTables : List String)
    (fetch : String → FetchOutcome) (t : String) (ht : t ∈ eventTables) :
    getTable (getAllBaseRecords eventTables fetch).1 t
      = some (pageRecords (fetch t)) ∧
    ((fetch t).fails = true → t ∈ (getAllBaseRecords eventTables fetch).2) := by
  constructor
  · rw [getAllBaseRecords, gabr_aux_table, if_pos ht]
  · intro hf
    exact gabr_aux_errors_mem fetch eventTables ([], []) ht hf

theorem airtable_c6_fetch_isolation_witness :
    getTable (getAllBaseRecords ["T1", "T2"] c6fetch).1 "T2"
      = some (pageRecords (c6fetch "T2")) ∧
    ((c6fetch "T2").fails = true →
      "T2" ∈ (getAllBaseRecords ["T1", "T2"] c6fetch).2) :=
  airtable_c6_fetch_isolation ["T1", "T2"] c6fetch "T2" (by decide)

/-! ### Claim C9 -/

/-- C9: a subscription registered via `on` whose `fireWhileTyping`
option is absent or not a boolean is stored with `fireWhileTyping =
false`; it therefore never satisfies the raw-modification dispatch
predicate, and satisfies the settled-modification one for its table
whenever its type is RecordModified. -/
theorem airtable_c9_nonboolean_fireWhileTyping (o : EventOptionsIn)
    (eventId : Option String) (connectorId : String)
    (registry : List (String × EventOptions))
    (hb : typeofIsBoolean o.fireWhileTyping = false)
    (hv : validEventTypes.contains o.type = true) :
    (normalizeOptions o).fireWhileTyping = false ∧
    onEvent o eventId connectorId registry =
      Except.ok (objSet registry (resolvedEventId o eventId connectorId)
        (normalizeOptions o), resolvedEventId o eventId connectorId) ∧
    matchesFire .rawModified o.table (normalizeOptions o) = false ∧
    (o.type = "RecordModified" →
      matchesFire .settledModified o.table (normalizeOptions o) = true) := by
  have hnorm : normalizeOptions o = ⟨o.type, o.table, false⟩ := by
    cases ho : o.fireWhileTyping with
    | none => simp [normalizeOptions, ho]
    | some v =>
        cases v <;> simp_all [normalizeOptions, typeofIsBoolean]
  have hv2 : o.type ∈ validEventTypes := by simpa using hv
  refine ⟨by simp [hnorm], by simp [onEvent, hv2], by simp [matchesFire, hnorm],
    ?_⟩
  intro hmt
  simp [matchesFire, hnorm, hmt]

theorem airtable_c9_nonboolean_fireWhileTyping_witness :
    (normalizeOptions ⟨"RecordModified", "T", some (.str "yes")⟩).fireWhileTyping
      = false ∧
    onEvent ⟨"RecordModified", "T", some (.str "yes")⟩ none "c1" [] =
      Except.ok (objSet []
        (resolvedEventId ⟨"RecordModified", "T", some (.str "yes")⟩ none "c1")
        (normalizeOptions ⟨"RecordModified", "T", some (.str "yes")⟩),
        resolvedEventId ⟨"RecordModified", "T", some (.str "yes")⟩ none "c1") ∧
    matchesFire .rawModified "T"
      (normalizeOptions ⟨"RecordModified", "T", some (.str "yes")⟩) = false ∧
    ("RecordModified" = "RecordModified" →
      matchesFire .settledModified "T"
        (normalizeOptions ⟨"RecordModified", "T", some (.str "yes")⟩) = true) :=
  airtable_c9_nonboolean_fireWhileTyping
    ⟨"RecordModified", "T", some (.str "yes")⟩ none "c1" []
    (by decide) (by decide)

/-! ### Claim C10 -/

/-- C10: a call to `on` with an event type outside RecordAdded,
RecordModified and RecordDeleted throws `Invalid event type` and leaves
the registry unchanged — the throw happens before `addEvent`, so no
subscription is added. -/
theorem airtable_c10_invalid_type_throws (o : EventOptionsIn)
    (eventId : Option String) (connectorId : String)
    (registry : List (String × EventOptions))
    (h : validEventTypes.contains o.type = false) :
    onEvent o eventId connectorId registry =
      Except.error ("Invalid event type: " ++ o.type) ∧
    registryAfter o eventId connectorId registry = registry := by
  have h2 : o.type ∉ validEventTypes := by simpa using h
  constructor
  · simp [onEvent, h2]
  · simp [registryAfter, onEvent, h2]

theorem airtable_c10_invalid_type_throws_witness :
    onEvent ⟨"Bogus", "T", none⟩ none "c1"
        [("e", ⟨"RecordAdded", "T", false⟩)] =
      Except.error ("Invalid event type: " ++ "Bogus") ∧
    registryAfter ⟨"Bogus", "T", none⟩ none "c1"
        [("e", ⟨"RecordAdded", "T", false⟩)] =
      [("e", ⟨"RecordAdded", "T", false⟩)] :=
  airtable_c10_invalid_type_throws ⟨"Bogus", "T", none⟩ none "c1"
    [("e", ⟨"RecordAdded", "T", false⟩)] (by decide)

/-! ### Claim C4 -/

/-- C4: a record of a subscribed table that appears as a raw
modification in tick 1 — as a record object fresh to the pending store,
which every freshly fetched record is — and does not appear as a raw
modification in tick 2 produces exactly one settled-modification entry,
delivered at tick 2: the tick-1 settled output has nothing for the
identifier, the tick-2 settled output carries the tick-1 record, and the
pending store after tick 2 has nothing for the identifier. -/
theorem airtable_c4_settles_one_tick_later (tables : List String)
    (T : String) (hT : T ∈ tables) (M1 M2 pending0 : Tables) (id : String)
    (r : TableRecord)
    (h1 : recLookup M1 T id = some r)
    (h2 : recLookup M2 T id = none)
    (hn1 : (keys ((getTable M1 T).getD [])).Nodup)
    (hn2 : (keys ((getTable M2 T).getD [])).Nodup)
    (hnp : (keys ((getTable pending0 T).getD [])).Nodup)
    (hfresh : ∀ prev,
      alookup ((getTable pending0 T).getD []) id = some prev → prev ≠ r) :
    recLookup (getModificationsToUpdate tables M1 ⟨true, pending0⟩).1 T id
      = none ∧
    recLookup (getModificationsToUpdate tables M2
      (getModificationsToUpdate tables M1 ⟨true, pending0⟩).2).1 T id
      = some r ∧
    recLookup (getModificationsToUpdate tables M2
      (getModificationsToUpdate tables M1 ⟨true, pending0⟩).2).2.stored T id
      = none := by
  have h1a : alookup ((getTable M1 T).getD []) id = some r := h1
  have h2a : alookup ((getTable M2 T).getD []) id = none := h2
  have hprevne : ∀ prev,
      alookup ((getTable pending0 T).getD []) id = some prev →
      jsStrictEq r prev = false := by
    intro prev hp
    exact jsStrictEq_eq_false_of_ne fun he => (hfresh prev hp) he.symm
  have hset1 := gmtu_settled_table tables M1 ⟨true, pending0⟩ rfl hT
  have hnext1 := gmtu_next_table tables M1 ⟨true, pending0⟩ rfl hT
  have hs1 :
      recLookup (getModificationsToUpdate tables M1 ⟨true, pending0⟩).1 T id
        = none := by
    rw [recLookup, hset1]
    simp only [Option.getD_some]
    rw [reconcileTable_settled_lookup _ _ hn1 hnp id, h1a]
    cases hp : alookup ((getTable pending0 T).getD []) id with
    | none => rfl
    | some prev => simp [hprevne prev hp]
  have hpend1 : alookup (reconcileTable ((getTable M1 T).getD [])
      ((getTable pending0 T).getD [])).2 id = some r := by
    rw [reconcileTable_next_lookup _ _ hn1 hnp id, h1a]
    cases hp : alookup ((getTable pending0 T).getD []) id with
    | none => rfl
    | some prev => simp [hprevne prev hp]
  have hnodnext : (keys (reconcileTable ((getTable M1 T).getD [])
      ((getTable pending0 T).getD [])).2).Nodup := by
    simp only [reconcileTable_components _ _ hn1 hnp]
    exact nodup_keys_filter hn1 _
  have hflag1 := gmtu_flag_true tables M1 ⟨true, pending0⟩
  have hset2 := gmtu_settled_table tables M2
    (getModificationsToUpdate tables M1 ⟨true, pending0⟩).2 hflag1 hT
  have hnext2 := gmtu_next_table tables M2
    (getModificationsToUpdate tables M1 ⟨true, pending0⟩).2 hflag1 hT
  refine ⟨hs1, ?_, ?_⟩
  · rw [recLookup, hset2, hnext1]
    simp only [Option.getD_some]
    rw [reconcileTable_settled_lookup _ _ hn2 hnodnext id, h2a, hpend1]
  · rw [recLookup, hnext2, hnext1]
    simp only [Option.getD_some]
    rw [reconcileTable_next_lookup _ _ hn2 hnodnext id, h2a]

def c4rec : TableRecord := ⟨3, "a", [("f", .num 5)]⟩

def c4m1 : Tables := [("T", [("a", c4rec)])]

def c4m2 : Tables := [("T", [])]

theorem airtable_c4_settles_one_tick_later_witness :
    recLookup (getModificationsToUpdate ["T"] c4m1 ⟨true, []⟩).1 "T" "a"
      = none ∧
    recLookup (getModificationsToUpdate ["T"] c4m2
      (getModificationsToUpdate ["T"] c4m1 ⟨true, []⟩).2).1 "T" "a"
      = some c4rec ∧
    recLookup (getModificationsToUpdate ["T"] c4m2
      (getModificationsToUpdate ["T"] c4m1 ⟨true, []⟩).2).2.stored "T" "a"
      = none :=
  airtable_c4_settles_one_tick_later ["T"] "T" (by decide) c4m1 c4m2 [] "a"
    c4rec (by decide) (by decide) (by decide) (by decide) (by decide)
    (fun prev hp => nomatch hp)

/-! ### Claim C5 -/

/-- C5: a record that appears as a raw modification with pairwise
distinct field-maps in each of N consecutive post-bootstrap ticks (its
first record differing from whatever the pending store holds for the
identifier, as a fresh record object always does) yields zero settled
events for that identifier across those N ticks, and the identifier is
carried in the pending store the whole time — after the run it holds the
last tick's record. -/
theorem airtable_c5_unstable_never_settles (tables : List String)
    (T : String) (hT : T ∈ tables) (id : String)
    (ticks : List (Tables × TableRecord)) (st : BufferState)
    (hflag : st.modificationsInStore = true)
    (hnp : (keys ((getTable st.stored T).getD [])).Nodup)
    (hmem : ∀ q ∈ ticks, recLookup q.1 T id = some q.2)
    (hnod : ∀ q ∈ ticks, (keys ((getTable q.1 T).getD [])).Nodup)
    (hdist : (ticks.map Prod.snd).Pairwise fun a b => a.fields ≠ b.fields)
    (hstart : ∀ q prev, ticks.head? = some q →
      alookup ((getTable st.stored T).getD []) id = some prev → prev ≠ q.2) :
    (∀ out ∈ (runTicks tables st (ticks.map Prod.fst)).1,
      recLookup out T id = none) ∧
    (∀ q, ticks.getLast? = some q →
      recLookup (runTicks tables st (ticks.map Prod.fst)).2.stored T id
        = some q.2) := by
  induction ticks generalizing st with
  | nil =>
      constructor
      · intro out hout
        simp [runTicks] at hout
      · intro q hq
        simp at hq
  | cons q tl ih =>
      rw [List.map_cons] at hdist
      have hq1 : alookup ((getTable q.1 T).getD []) id = some q.2 :=
        hmem q (List.mem_cons_self q tl)
      have hnodq : (keys ((getTable q.1 T).getD [])).Nodup :=
        hnod q (List.mem_cons_self q tl)
      have hprevne : ∀ prev,
          alookup ((getTable st.stored T).getD []) id = some prev →
          jsStrictEq q.2 prev = false := by
        intro prev hp
        exact jsStrictEq_eq_false_of_ne fun he => (hstart q prev rfl hp) he.symm
      have hset := gmtu_settled_table tables q.1 st hflag hT
      have hnext := gmtu_next_table tables q.1 st hflag hT
      have hsettled :
          recLookup (getModificationsToUpdate tables q.1 st).1 T id = none := by
        rw [recLookup, hset]
        simp only [Option.getD_some]
        rw [reconcileTable_settled_lookup _ _ hnodq hnp id, hq1]
        cases hp : alookup ((getTable st.stored T).getD []) id with
        | none => rfl
        | some prev => simp [hprevne prev hp]
      have hpend : alookup (reconcileTable ((getTable q.1 T).getD [])
          ((getTable st.stored T).getD [])).2 id = some q.2 := by
        rw [reconcileTable_next_lookup _ _ hnodq hnp id, hq1]
        cases hp : alookup ((getTable st.stored T).getD []) id with
        | none => rfl
        | some prev => simp [hprevne prev hp]
      have hnodnext : (keys (reconcileTable ((getTable q.1 T).getD [])
          ((getTable st.stored T).getD [])).2).Nodup := by
        simp only [reconcileTable_components _ _ hnodq hnp]
        exact nodup_keys_filter hnodq _
      have hflag2 := gmtu_flag_true tables q.1 st
      have hnp2 : (keys ((getTable
          (getModificationsToUpdate tables q.1 st).2.stored T).getD
            [])).Nodup := by
        rw [hnext]
        simpa using hnodnext
      have hstart2 : ∀ p prev, tl.head? = some p →
          alookup ((getTable (getModificationsToUpdate tables q.1 st).2.stored
            T).getD []) id = some prev → prev ≠ p.2 := by
        intro p prev hhead hp
        rw [hnext] at hp
        simp only [Option.getD_some] at hp
        rw [hpend] at hp
        have hprev : prev = q.2 := (Option.some.inj hp).symm
        have hpmem : p.2 ∈ tl.map Prod.snd := by
          cases tl with
          | nil => exact nomatch hhead
          | cons a tl2 =>
              have hap : a = p := by simpa using hhead
              subst hap
              simp
        have hfne : q.2.fields ≠ p.2.fields :=
          (List.pairwise_cons.mp hdist).1 p.2 hpmem
        intro he
        exact hfne (congrArg TableRecord.fields (hprev ▸ he))
      have hrest := ih (getModificationsToUpdate tables q.1 st).2 hflag2 hnp2
        (fun p hp => hmem p (List.mem_cons_of_mem _ hp))
        (fun p hp => hnod p (List.mem_cons_of_mem _ hp))
        (List.Pairwise.of_cons hdist) hstart2
      constructor
      · intro out hout
        simp only [List.map_cons, runTicks] at hout
        rcases List.mem_cons.mp hout with h | h
        · subst h
          exact hsettled
        · exact hrest.1 out h
      · intro p hlast
        cases tl with
        | nil =>
            have hpq : q = p := by simpa using hlast
            subst hpq
            simp only [List.map_cons, List.map_nil, runTicks]
            rw [recLookup, hnext]
            simpa using hpend
        | cons a tl2 =>
            have hlast2 : (a :: tl2).getLast? = some p := by
              simpa [List.getLast?_cons_cons] using hlast
            simp only [List.map_cons, runTicks]
            exact hrest.2 p hlast2

def c5r1 : TableRecord := ⟨1, "a", [("f", .num 1)]⟩

def c5r2 : TableRecord := ⟨2, "a", [("f", .num 2)]⟩

def c5m1 : Tables := [("T", [("a", c5r1)])]

def c5m2 : Tables := [("T", [("a", c5r2)])]

theorem airtable_c5_unstable_never_settles_witness :
    recLookup (((runTicks ["T"] ⟨true, []⟩
        ([(c5m1, c5r1), (c5m2, c5r2)].map Prod.fst)).1).getD 0 []) "T" "a"
      = none ∧
    recLookup (((runTicks ["T"] ⟨true, []⟩
        ([(c5m1, c5r1), (c5m2, c5r2)].map Prod.fst)).1).getD 1 []) "T" "a"
      = none ∧
    recLookup (runTicks ["T"] ⟨true, []⟩
        ([(c5m1, c5r1), (c5m2, c5r2)].map Prod.fst)).2.stored "T" "a"
      = some c5r2 := by
  have h := airtable_c5_unstable_never_settles ["T"] "T" (by decide) "a"
    [(c5m1, c5r1), (c5m2, c5r2)] ⟨true, []⟩ rfl (by decide)
    (by decide) (by decide) (by decide)
    (fun q prev _ hp => nomatch hp)
  exact ⟨h.1 _ (by decide), h.1 _ (by decide), h.2 (c5m2, c5r2) (by decide)⟩

end AirtableConnector
